import Mathlib

/-!
Shallow embedding of the go-stack repository: a generic LIFO stack with a
configurable capacity bound (`src/stack.go`, `src/config.go`, `src/errors.go`).
Go slices become Lean lists (the logical top is the last element), the Go
`int` capacity becomes `Int` (the sentinel `UnlimitedCapacity = -1` included),
the recoverable error values `ErrOverflow` / `ErrUnderflow` become the
inductive `StackErr`, and the configuration-time panic inside `WithCapacity`
becomes an `Except String` failure of construction — a channel deliberately
distinct from `StackErr`.  Go's implicit zero value of the element type is
modelled by `Inhabited.default`.
-/

namespace GoStack

/-- The two recoverable error values of `src/errors.go`:
`ErrOverflow` ("stack overflow") and `ErrUnderflow` ("stack underflow"). -/
inductive StackErr where
  | overflow
  | underflow
deriving DecidableEq, Repr

/-- The state of `type stack[T]` from `src/stack.go`: the capacity field and
the backing slice.  The `sync.RWMutex` field has no sequential content and is
omitted. -/
structure Stack (T : Type) where
  capacity : Int
  items : List T
deriving DecidableEq, Repr

/-- The constant `UnlimitedCapacity = -1` from `src/config.go`. -/
def UnlimitedCapacity : Int := -1

/-- The configuration options of the repository.  `WithCapacity` is the only
option constructor the package exposes (`src/config.go`). -/
inductive ConfigOpt where
  | withCapacity (cap : Int)
deriving DecidableEq, Repr

/-- Applying one option to a stack under construction.  The body of the
closure returned by `WithCapacity` in `src/config.go`: panics (modelled as
`Except.error`) when `cap < UnlimitedCapacity`, otherwise sets the capacity
field. -/
def applyOpt {T : Type} (o : ConfigOpt) (s : Stack T) : Except String (Stack T) :=
  match o with
  | .withCapacity cap =>
      if cap < UnlimitedCapacity then
        .error "cannot specify arbitrary negative capacity"
      else
        .ok { s with capacity := cap }

/-- `newStack` from `src/stack.go`: start from `capacity = UnlimitedCapacity`,
apply each option in the order given, then set `items` to the empty slice.
`New` merely wraps `newStack`, so this is also the public constructor. -/
def newStack (T : Type) (opts : List ConfigOpt) : Except String (Stack T) := do
  let s0 : Stack T := { capacity := UnlimitedCapacity, items := [] }
  let s ← opts.foldlM (fun s o => applyOpt o s) s0
  return { s with items := [] }

/-- `Push` from `src/stack.go`: returns `ErrOverflow` when
`capacity >= 0 && len(items)+1 > capacity`, otherwise appends `val` and
returns nil (`none`). -/
def Push {T : Type} (s : Stack T) (val : T) : Stack T × Option StackErr :=
  if 0 ≤ s.capacity ∧ (s.items.length : Int) + 1 > s.capacity then
    (s, some .overflow)
  else
    ({ s with items := s.items ++ [val] }, none)

/-- `Pop` from `src/stack.go`: on an empty stack returns the zero value and
`ErrUnderflow` without mutating; otherwise removes and returns the last
element (`result := s.items[idx]; s.items = s.items[:idx]` with
`idx = len-1`). -/
def Pop {T : Type} [Inhabited T] (s : Stack T) : Stack T × T × Option StackErr :=
  let sz := s.items.length
  if sz = 0 then
    (s, default, some .underflow)
  else
    let idx := sz - 1
    ({ s with items := s.items.take idx }, s.items.getD idx default, none)

/-- `Size` from `src/stack.go`: the current length of the backing slice, as a
Go `int`. -/
def Size {T : Type} (s : Stack T) : Int :=
  (s.items.length : Int)

/-- `Peek` from `src/stack.go`: like `Pop`'s emptiness check but without the
slice reassignment; the receiver state after the call is returned unchanged. -/
def Peek {T : Type} [Inhabited T] (s : Stack T) : Stack T × T × Option StackErr :=
  let sz := s.items.length
  if sz = 0 then
    (s, default, some .underflow)
  else
    (s, s.items.getD (sz - 1) default, none)

/-- The capacity invariant of the data model: when the capacity is bounded the
stored length never exceeds it.  (Lengths are `Nat`, so `length ≥ 0` is
inherent.) -/
def Inv {T : Type} (s : Stack T) : Prop :=
  0 ≤ s.capacity → (s.items.length : Int) ≤ s.capacity

instance {T : Type} (s : Stack T) : Decidable (Inv s) := by
  unfold Inv; infer_instance

/-- Pushing a whole list of values in order, stopping at the first error; the
returned error is `none` exactly when every push succeeded. -/
def pushAll {T : Type} (s : Stack T) : List T → Stack T × Option StackErr
  | [] => (s, none)
  | v :: vs =>
      match Push s v with
      | (s1, none) => pushAll s1 vs
      | (s1, some e) => (s1, some e)

/-- Popping `n` times in a row, collecting each returned value together with
its returned error. -/
def popN {T : Type} [Inhabited T] (s : Stack T) : Nat → Stack T × List (T × Option StackErr)
  | 0 => (s, [])
  | n + 1 =>
      let r := Pop s
      let rest := popN r.1 n
      (rest.1, (r.2.1, r.2.2) :: rest.2)

/-- A single caller-visible operation on one stack, for reasoning about
operation sequences. -/
inductive Op (T : Type) where
  | push (v : T)
  | pop
  | peek
  | size
deriving DecidableEq, Repr

/-- A stack state together with the counts of successful Push and Pop calls
observed so far. -/
structure RunState (T : Type) where
  stack : Stack T
  okPushes : Nat
  okPops : Nat
deriving DecidableEq, Repr

/-- Executing one operation and updating the success counters. -/
def step {T : Type} [Inhabited T] (r : RunState T) : Op T → RunState T
  | .push v =>
      let p := Push r.stack v
      { stack := p.1,
        okPushes := if p.2 = none then r.okPushes + 1 else r.okPushes,
        okPops := r.okPops }
  | .pop =>
      let p := Pop r.stack
      { stack := p.1,
        okPushes := r.okPushes,
        okPops := if p.2.2 = none then r.okPops + 1 else r.okPops }
  | .peek => { r with stack := (Peek r.stack).1 }
  | .size => r

/-- Executing a finite sequence of operations from an initial stack, with
both success counters starting at zero. -/
def run {T : Type} [Inhabited T] (s0 : Stack T) (ops : List (Op T)) : RunState T :=
  ops.foldl step { stack := s0, okPushes := 0, okPops := 0 }

/- ## Helper lemmas -/

theorem push_eq_of_full {T : Type} (s : Stack T) (v : T)
    (h : 0 ≤ s.capacity ∧ (s.items.length : Int) + 1 > s.capacity) :
    Push s v = (s, some .overflow) := by
  unfold Push; rw [if_pos h]

theorem push_eq_of_room {T : Type} (s : Stack T) (v : T)
    (h : ¬ (0 ≤ s.capacity ∧ (s.items.length : Int) + 1 > s.capacity)) :
    Push s v = ({ s with items := s.items ++ [v] }, none) := by
  unfold Push; rw [if_neg h]

theorem pop_of_empty {T : Type} [Inhabited T] (s : Stack T) (h : s.items = []) :
    Pop s = (s, default, some .underflow) := by
  simp [Pop, h]

theorem pop_concat {T : Type} [Inhabited T] (c : Int) (l : List T) (v : T) :
    Pop { capacity := c, items := l ++ [v] } =
      ({ capacity := c, items := l }, v, none) := by
  simp [Pop, List.getD_eq_getElem?_getD, List.getElem?_concat_length, List.take_left]

theorem peek_state {T : Type} [Inhabited T] (s : Stack T) : (Peek s).1 = s := by
  by_cases h : s.items.length = 0 <;> simp [Peek, h]

theorem peek_of_empty {T : Type} [Inhabited T] (s : Stack T) (h : s.items = []) :
    Peek s = (s, default, some .underflow) := by
  simp [Peek, h]

theorem peek_concat {T : Type} [Inhabited T] (c : Int) (l : List T) (v : T) :
    Peek { capacity := c, items := l ++ [v] } =
      ({ capacity := c, items := l ++ [v] }, v, none) := by
  simp [Peek, List.getD_eq_getElem?_getD, List.getElem?_concat_length]

theorem pushAll_ok {T : Type} (vs : List T) :
    ∀ (s s' : Stack T), pushAll s vs = (s', none) →
      s' = { capacity := s.capacity, items := s.items ++ vs } := by
  induction vs with
  | nil =>
      intro s s' h
      simp [pushAll] at h
      simp [← h]
  | cons v vs ih =>
      intro s s' h
      by_cases hc : 0 ≤ s.capacity ∧ (s.items.length : Int) + 1 > s.capacity
      · rw [pushAll, push_eq_of_full s v hc] at h
        simp at h
      · rw [pushAll, push_eq_of_room s v hc] at h
        have h2 := ih _ _ h
        simp [h2]

theorem popN_concat {T : Type} [Inhabited T] (vs : List T) :
    ∀ (c : Int) (base : List T),
      popN { capacity := c, items := base ++ vs } vs.length =
        ({ capacity := c, items := base }, vs.reverse.map (fun v => (v, none))) := by
  induction vs using List.reverseRecOn with
  | nil => intro c base; simp [popN]
  | append_singleton ys y ih =>
      intro c base
      have hlen : (ys ++ [y]).length = ys.length + 1 := by simp
      have hassoc : base ++ (ys ++ [y]) = (base ++ ys) ++ [y] := by
        rw [List.append_assoc]
      rw [hlen, hassoc, popN]
      simp only [pop_concat c (base ++ ys) y]
      simp [ih c base]

theorem newStack_items {T : Type} (opts : List ConfigOpt) (s : Stack T)
    (h : newStack T opts = .ok s) : s.items = [] := by
  cases hf : opts.foldlM (fun s o => applyOpt o s)
      ({ capacity := UnlimitedCapacity, items := [] } : Stack T) with
  | error e => simp [newStack, hf, Bind.bind, Except.bind] at h
  | ok s1 =>
      simp [newStack, hf, Bind.bind, Except.bind, Pure.pure, Except.pure] at h
      rw [← h]

theorem inv_push {T : Type} (s : Stack T) (v : T) (h : Inv s) : Inv (Push s v).1 := by
  by_cases hc : 0 ≤ s.capacity ∧ (s.items.length : Int) + 1 > s.capacity
  · rw [push_eq_of_full s v hc]; exact h
  · rw [push_eq_of_room s v hc]
    intro hcap
    push_neg at hc
    have h2 := hc hcap
    simp only [List.length_append, List.length_cons, List.length_nil]
    push_cast
    omega

theorem pop_cases {T : Type} [Inhabited T] (s : Stack T) :
    (s.items.length = 0 ∧ Pop s = (s, default, some .underflow)) ∨
    (s.items.length ≠ 0 ∧ (Pop s).2.2 = none ∧
      (Pop s).1.items.length + 1 = s.items.length ∧ (Pop s).1.capacity = s.capacity) := by
  by_cases he : s.items.length = 0
  · exact Or.inl ⟨he, pop_of_empty s (List.length_eq_zero.mp he)⟩
  · right
    refine ⟨he, ?_, ?_, ?_⟩ <;> simp [Pop, he, List.length_take]
    omega

theorem inv_pop {T : Type} [Inhabited T] (s : Stack T) (h : Inv s) : Inv (Pop s).1 := by
  rcases pop_cases s with ⟨_, heq⟩ | ⟨_, _, hlen, hcap⟩
  · rw [heq]; exact h
  · intro hc
    rw [hcap] at hc
    have h2 := h hc
    rw [hcap]
    omega

theorem step_count {T : Type} [Inhabited T] (b : Nat) (r : RunState T) (op : Op T)
    (h : r.stack.items.length + r.okPops = r.okPushes + b) :
    (step r op).stack.items.length + (step r op).okPops = (step r op).okPushes + b := by
  cases op with
  | push v =>
      by_cases hc : 0 ≤ r.stack.capacity ∧ (r.stack.items.length : Int) + 1 > r.stack.capacity
      · simp [step, push_eq_of_full r.stack v hc]; omega
      · simp [step, push_eq_of_room r.stack v hc]; omega
  | pop =>
      rcases pop_cases r.stack with ⟨_, heq⟩ | ⟨_, hok, hlen, _⟩
      · simp [step, heq]; omega
      · simp [step, hok]; omega
  | peek => simp [step, peek_state]; omega
  | size => simpa [step] using h

theorem run_count {T : Type} [Inhabited T] (b : Nat) (ops : List (Op T)) :
    ∀ (r : RunState T), r.stack.items.length + r.okPops = r.okPushes + b →
      (ops.foldl step r).stack.items.length + (ops.foldl step r).okPops =
        (ops.foldl step r).okPushes + b := by
  induction ops with
  | nil => intro r h; simpa using h
  | cons op ops ih =>
      intro r h
      simpa [List.foldl_cons] using ih (step r op) (step_count b r op h)

/- ## Claim theorems -/

/-- Claim C1: for every sequence of N successful Push calls with values
v1..vN on any stack (no intervening Pop), N subsequent Pop calls all succeed
and return vN, vN-1, ..., v1 in that exact order (and the stack returns to its
pre-push state). -/
theorem lifo_order {T : Type} [Inhabited T] (s s' : Stack T) (vs : List T)
    (h : pushAll s vs = (s', none)) :
    popN s' vs.length = (s, vs.reverse.map (fun v => (v, none))) := by
  have h2 := pushAll_ok vs s s' h
  subst h2
  have h3 := popN_concat vs s.capacity s.items
  simpa using h3

/-- Witness for C1 at a concrete input: pushing 1, 2, 3 on a fresh unbounded
stack then popping three times yields 3, 2, 1, each without error. -/
theorem lifo_order_witness :
    popN ({ capacity := UnlimitedCapacity, items := [1, 2, 3] } : Stack Int)
        ([1, 2, 3] : List Int).length =
      (({ capacity := UnlimitedCapacity, items := [] } : Stack Int),
        ([1, 2, 3] : List Int).reverse.map (fun v => (v, none))) :=
  lifo_order ({ capacity := UnlimitedCapacity, items := [] } : Stack Int)
    { capacity := UnlimitedCapacity, items := [1, 2, 3] } ([1, 2, 3] : List Int)
    (by decide)

/-- Claim C2: on any state satisfying the capacity invariant (which holds in
every reachable state), Push returns the Overflow error iff the capacity is
bounded (≥ 0) and the current length equals the capacity; in particular Push
always succeeds when the capacity is the Unlimited sentinel (-1). -/
theorem push_overflow_iff {T : Type} (s : Stack T) (v : T) (h : Inv s) :
    ((Push s v).2 = some StackErr.overflow ↔
      0 ≤ s.capacity ∧ (s.items.length : Int) = s.capacity) ∧
    (s.capacity = UnlimitedCapacity → (Push s v).2 = none) := by
  unfold Inv at h
  by_cases hc : 0 ≤ s.capacity ∧ (s.items.length : Int) + 1 > s.capacity
  · rw [push_eq_of_full s v hc]
    have h2 := h hc.1
    have h3 := hc.2
    refine ⟨⟨fun _ => ⟨hc.1, by omega⟩, fun _ => rfl⟩, fun hu => ?_⟩
    rw [hu] at hc
    exact absurd hc.1 (by norm_num [UnlimitedCapacity])
  · rw [push_eq_of_room s v hc]
    push_neg at hc
    constructor
    · constructor
      · intro habs
        simp at habs
      · intro hlen
        have h3 := hc hlen.1
        exfalso
        omega
    · intro _
      rfl

/-- Witness for C2 at a concrete input: a full stack of capacity 2 overflows,
and its length equals its capacity. -/
theorem push_overflow_iff_witness :
    ((Push ({ capacity := 2, items := [5, 6] } : Stack Int) 7).2 =
        some StackErr.overflow ↔
      0 ≤ ({ capacity := 2, items := [5, 6] } : Stack Int).capacity ∧
        ((({ capacity := 2, items := [5, 6] } : Stack Int).items.length : Int) =
          ({ capacity := 2, items := [5, 6] } : Stack Int).capacity)) ∧
    (({ capacity := 2, items := [5, 6] } : Stack Int).capacity = UnlimitedCapacity →
      (Push ({ capacity := 2, items := [5, 6] } : Stack Int) 7).2 = none) :=
  push_overflow_iff { capacity := 2, items := [5, 6] } 7 (by decide)

/-- Claim C3: the capacity invariant (length ≤ capacity whenever the capacity
is bounded) holds for every successfully constructed stack and is preserved by
Push and Pop; the length, as reported by Size, is never negative; Peek leaves
the state unchanged (so it also preserves the invariant, as does Size, which
does not touch the state at all). -/
theorem capacity_invariant (T : Type) [Inhabited T] :
    (∀ (opts : List ConfigOpt) (s : Stack T), newStack T opts = .ok s →
      Inv s ∧ 0 ≤ Size s) ∧
    (∀ (s : Stack T) (v : T), Inv s → Inv (Push s v).1 ∧ 0 ≤ Size (Push s v).1) ∧
    (∀ (s : Stack T), Inv s → Inv (Pop s).1 ∧ 0 ≤ Size (Pop s).1) ∧
    (∀ (s : Stack T), (Peek s).1 = s) := by
  refine ⟨?_, ?_, ?_, peek_state⟩
  · intro opts s h
    have he := newStack_items opts s h
    constructor
    · intro hcap
      rw [he]
      simpa using hcap
    · simp [Size]
  · intro s v h
    exact ⟨inv_push s v h, by simp [Size]⟩
  · intro s h
    exact ⟨inv_pop s h, by simp [Size]⟩

/-- Witness for C3 at concrete inputs: the invariant holds for a freshly
constructed stack of capacity 2, is kept by a Push on it, and is kept by a Pop
on a one-element stack of capacity 2. -/
theorem capacity_invariant_witness :
    (Inv ({ capacity := 2, items := [] } : Stack Int) ∧
      0 ≤ Size ({ capacity := 2, items := [] } : Stack Int)) ∧
    (Inv (Push ({ capacity := 2, items := [] } : Stack Int) 9).1 ∧
      0 ≤ Size (Push ({ capacity := 2, items := [] } : Stack Int) 9).1) ∧
    (Inv (Pop ({ capacity := 2, items := [9] } : Stack Int)).1 ∧
      0 ≤ Size (Pop ({ capacity := 2, items := [9] } : Stack Int)).1) :=
  ⟨(capacity_invariant Int).1 [ConfigOpt.withCapacity 2]
      { capacity := 2, items := [] } (by rfl),
    (capacity_invariant Int).2.1 { capacity := 2, items := [] } 9 (by decide),
    (capacity_invariant Int).2.2.1 { capacity := 2, items := [9] } (by decide)⟩

/-- Claim C4: on a stack of size 0, Pop and Peek both fail with the Underflow
error and return the zero value of T, leaving the state untouched; on a
non-empty stack neither returns an error. -/
theorem empty_stack_errors {T : Type} [Inhabited T] (s : Stack T) :
    (Size s = 0 →
      Pop s = (s, default, some StackErr.underflow) ∧
      Peek s = (s, default, some StackErr.underflow)) ∧
    (Size s ≠ 0 → (Pop s).2.2 = none ∧ (Peek s).2.2 = none) := by
  constructor
  · intro h
    have he : s.items = [] := by
      simpa [Size] using h
    exact ⟨pop_of_empty s he, peek_of_empty s he⟩
  · intro h
    have he : s.items.length ≠ 0 := by
      simpa [Size] using h
    constructor <;> simp [Pop, Peek, he]

/-- Witness for C4 at concrete inputs: Pop and Peek on an empty unbounded
stack underflow without mutating it, and Pop succeeds on a one-element
stack. -/
theorem empty_stack_errors_witness :
    (Pop ({ capacity := UnlimitedCapacity, items := [] } : Stack Int) =
        ({ capacity := UnlimitedCapacity, items := [] }, default,
          some StackErr.underflow) ∧
      Peek ({ capacity := UnlimitedCapacity, items := [] } : Stack Int) =
        ({ capacity := UnlimitedCapacity, items := [] }, default,
          some StackErr.underflow)) ∧
    (Pop ({ capacity := UnlimitedCapacity, items := [4] } : Stack Int)).2.2 = none :=
  ⟨(empty_stack_errors { capacity := UnlimitedCapacity, items := [] }).1 (by decide),
    ((empty_stack_errors { capacity := UnlimitedCapacity, items := [4] }).2
      (by decide)).1⟩

/-- Claim C5: after any finite sequence of operations on a stack built by the
constructor, Size equals the number of successful Pushes minus the number of
successful Pops, and that difference is never negative. -/
theorem size_accounting {T : Type} [Inhabited T] (opts : List ConfigOpt)
    (s0 : Stack T) (h : newStack T opts = .ok s0) (ops : List (Op T)) :
    Size (run s0 ops).stack =
        ((run s0 ops).okPushes : Int) - ((run s0 ops).okPops : Int) ∧
    0 ≤ ((run s0 ops).okPushes : Int) - ((run s0 ops).okPops : Int) := by
  have he := newStack_items opts s0 h
  have hr := run_count 0 ops
    ({ stack := s0, okPushes := 0, okPops := 0 } : RunState T) (by simp [he])
  simp only [run, Size] at *
  constructor <;> omega

/-- Witness for C5 at a concrete trace: two pushes, one pop, a failed pop on
the empty stack, and interleaved peek and size queries on a fresh unbounded
stack. -/
theorem size_accounting_witness :
    Size (run ({ capacity := UnlimitedCapacity, items := [] } : Stack Int)
          [Op.push 1, Op.push 2, Op.pop, Op.peek, Op.size, Op.pop, Op.pop]).stack =
        ((run ({ capacity := UnlimitedCapacity, items := [] } : Stack Int)
          [Op.push 1, Op.push 2, Op.pop, Op.peek, Op.size, Op.pop, Op.pop]).okPushes : Int) -
        ((run ({ capacity := UnlimitedCapacity, items := [] } : Stack Int)
          [Op.push 1, Op.push 2, Op.pop, Op.peek, Op.size, Op.pop, Op.pop]).okPops : Int) ∧
    0 ≤ ((run ({ capacity := UnlimitedCapacity, items := [] } : Stack Int)
          [Op.push 1, Op.push 2, Op.pop, Op.peek, Op.size, Op.pop, Op.pop]).okPushes : Int) -
        ((run ({ capacity := UnlimitedCapacity, items := [] } : Stack Int)
          [Op.push 1, Op.push 2, Op.pop, Op.peek, Op.size, Op.pop, Op.pop]).okPops : Int) :=
  size_accounting [] { capacity := UnlimitedCapacity, items := [] } (by rfl)
    [Op.push 1, Op.push 2, Op.pop, Op.peek, Op.size, Op.pop, Op.pop]

/-- Claim C6: Peek is idempotent and non-mutating: it leaves the state (hence
the contents and Size) unchanged, and a second consecutive Peek returns
exactly the same (state, value, error) triple. -/
theorem peek_idempotent {T : Type} [Inhabited T] (s : Stack T) :
    (Peek s).1 = s ∧ Peek (Peek s).1 = Peek s ∧ Size (Peek s).1 = Size s := by
  refine ⟨peek_state s, ?_, ?_⟩ <;> rw [peek_state s]

/-- Claim C7: options are applied in order and a later WithCapacity overrides
an earlier one: for any two valid capacities the second wins, and concretely
WithCapacity 5 followed by WithCapacity 3 gives capacity 3, on which three
pushes succeed and a fourth fails with Overflow. -/
theorem option_override (c1 c2 : Int)
    (h1 : UnlimitedCapacity ≤ c1) (h2 : UnlimitedCapacity ≤ c2) :
    newStack Int [ConfigOpt.withCapacity c1, ConfigOpt.withCapacity c2] =
        .ok { capacity := c2, items := [] } ∧
    (∀ s : Stack Int,
      newStack Int [ConfigOpt.withCapacity 5, ConfigOpt.withCapacity 3] = .ok s →
        s.capacity = 3 ∧ (pushAll s [1, 2, 3]).2 = none ∧
        (Push (pushAll s [1, 2, 3]).1 4).2 = some StackErr.overflow) := by
  constructor
  · simp [newStack, applyOpt, List.foldlM, Bind.bind, Except.bind, Pure.pure,
      Except.pure, not_lt.mpr h1, not_lt.mpr h2]
  · intro s h
    have hval : newStack Int [ConfigOpt.withCapacity 5, ConfigOpt.withCapacity 3] =
        .ok { capacity := 3, items := [] } := by rfl
    rw [hval] at h
    have hs : ({ capacity := 3, items := [] } : Stack Int) = s := by
      injection h
    rw [← hs]
    refine ⟨rfl, by decide, by decide⟩

/-- Witness for C7 at the concrete capacities 5 and 3. -/
theorem option_override_witness :
    newStack Int [ConfigOpt.withCapacity 5, ConfigOpt.withCapacity 3] =
        .ok { capacity := 3, items := [] } ∧
    (∀ s : Stack Int,
      newStack Int [ConfigOpt.withCapacity 5, ConfigOpt.withCapacity 3] = .ok s →
        s.capacity = 3 ∧ (pushAll s [1, 2, 3]).2 = none ∧
        (Push (pushAll s [1, 2, 3]).1 4).2 = some StackErr.overflow) :=
  option_override 5 3 (by decide) (by decide)

/-- Claim C8: WithCapacity with cap < -1 makes construction abort with the
configuration-time panic (modelled as the `Except.error` channel, disjoint
from the recoverable `StackErr` values); for every cap ≥ -1 the panic branch
is not taken and construction succeeds with that capacity. -/
theorem invalid_capacity_fatal (cap : Int) :
    (cap < UnlimitedCapacity →
      newStack Int [ConfigOpt.withCapacity cap] =
        .error "cannot specify arbitrary negative capacity") ∧
    (UnlimitedCapacity ≤ cap →
      newStack Int [ConfigOpt.withCapacity cap] =
        .ok { capacity := cap, items := [] }) := by
  constructor
  · intro h
    simp [newStack, applyOpt, List.foldlM, Bind.bind, Except.bind, h]
  · intro h
    simp [newStack, applyOpt, List.foldlM, Bind.bind, Except.bind, Pure.pure,
      Except.pure, not_lt.mpr h]

/-- Witness for C8 at concrete capacities: -5 panics at configuration time,
0 and the Unlimited sentinel construct successfully. -/
theorem invalid_capacity_fatal_witness :
    newStack Int [ConfigOpt.withCapacity (-5)] =
        .error "cannot specify arbitrary negative capacity" ∧
    newStack Int [ConfigOpt.withCapacity 0] = .ok { capacity := 0, items := [] } ∧
    newStack Int [ConfigOpt.withCapacity UnlimitedCapacity] =
        .ok { capacity := UnlimitedCapacity, items := [] } :=
  ⟨(invalid_capacity_fatal (-5)).1 (by decide),
    (invalid_capacity_fatal 0).2 (by decide),
    (invalid_capacity_fatal UnlimitedCapacity).2 (by decide)⟩

/-- Claim C10: on every non-empty stack, Peek returns exactly the value that
an immediately following Pop returns, and both succeed. -/
theorem peek_pop_agree {T : Type} [Inhabited T] (s : Stack T) (h : Size s ≠ 0) :
    (Peek s).2.1 = (Pop s).2.1 ∧ (Peek s).2.2 = none ∧ (Pop s).2.2 = none := by
  have he : s.items.length ≠ 0 := by
    simpa [Size] using h
  refine ⟨?_, ?_, ?_⟩ <;> simp [Peek, Pop, he]

/-- Witness for C10 at a concrete input: a one-element stack holding 42. -/
theorem peek_pop_agree_witness :
    (Peek ({ capacity := UnlimitedCapacity, items := [42] } : Stack Int)).2.1 =
        (Pop ({ capacity := UnlimitedCapacity, items := [42] } : Stack Int)).2.1 ∧
    (Peek ({ capacity := UnlimitedCapacity, items := [42] } : Stack Int)).2.2 = none ∧
    (Pop ({ capacity := UnlimitedCapacity, items := [42] } : Stack Int)).2.2 = none :=
  peek_pop_agree ({ capacity := UnlimitedCapacity, items := [42] } : Stack Int)
    (by decide)

end GoStack
